import Mathlib

/-!
Verification development for the Edunext retrieval core
(`app/utils/rag_chain.py`).

Part 1 — hierarchical vector-index lifecycle (`create_vector_db`,
`merge_vector_dbs`, `get_hierarchical_db`): a shallow embedding of the
module-level mutable state (base/subject/student handle tables, the
merged-DB cache, and the on-disk FAISS store) as an explicit state
record, with each Python function translated into a state-passing Lean
function.  A FAISS store is modelled by the ordered list of document
chunks it indexes; the `embeds` counter counts how many chunks have
been run through the embedding provider (`FAISS.from_documents` embeds
every document it is given; `FAISS.load_local` embeds nothing).

Part 2 — the quiz-generation parser inside `generate_quiz_questions`:
a character-list transcription of the cascading string matching, the
two block dialects, the validation gate, and the truncation rule.
-/

set_option maxHeartbeats 1000000

namespace Edunext

/-- A vector store, modelled by the ordered list of chunk texts it
indexes (`index_to_docstore_id` order). -/
abbrev VectorDB := List String

/-- Key of the merged-DB cache `_merged_dbs`: the Python code uses the
strings `f"subject_{subject_id}"` and `f"student_{user_id}"`, which this
tagged type encodes injectively. -/
inductive MergeKey where
  | subject (id : Nat)
  | student (id : Nat)
deriving DecidableEq

/-- On-disk FAISS persistence (`static/vector_store/{base,subjects,students}`):
`some db` means `index.faiss` exists at that path and indexes `db`. -/
structure DiskStore where
  base : Option VectorDB
  subjects : Nat → Option VectorDB
  students : Nat → Option VectorDB

/-- The module-level mutable state of `rag_chain.py`:
`_base_vector_db`, `_subject_dbs`, `_student_dbs`, `_merged_dbs`,
plus the disk store and an embedding-call counter (number of chunks
sent to the embedding provider). -/
structure RagState where
  store : DiskStore
  baseDb : Option VectorDB
  subjectDbs : Nat → Option VectorDB
  studentDbs : Nat → Option VectorDB
  mergedDbs : MergeKey → Option VectorDB
  embeds : Nat

def emptyStore : DiskStore := ⟨none, fun _ => none, fun _ => none⟩

/-- Fresh process state: empty handle tables, empty merge cache, an
arbitrary pre-existing disk store. -/
def initState (st : DiskStore) : RagState :=
  ⟨st, none, fun _ => none, fun _ => none, fun _ => none, 0⟩

/-- All errors raised by the module are Python `ValueError`s with a
message. -/
inductive RagError where
  | valueError (msg : String)
deriving DecidableEq

/-- `create_vector_db(file_paths, subject_id, user_id, is_base)`
(rag_chain.py lines 66-149).  `chunks` is the output of the document
splitter on the supplied files.  Target selection follows the source:
`is_base` first, else `subject_id`, else `user_id`, else `ValueError`.
If `index.faiss` already exists at the target path the store is loaded
(no embedding, no cache invalidation) and its chunk count returned.
Otherwise a fresh index is built (embedding every chunk), the handle is
registered, and the merge cache is invalidated: wholly for a base
build, at the single key for a subject/student build.  Note: the fresh
build never writes the disk store (the source has no `save_local`). -/
def create_vector_db (s : RagState) (chunks : List String)
    (subjectId userId : Option Nat) (isBase : Bool) :
    Except RagError (Nat × RagState) :=
  if isBase then
    match s.store.base with
    | some db => .ok (db.length, { s with baseDb := some db })
    | none =>
      if chunks = [] then
        .error (.valueError "No document content found after splitting")
      else
        .ok (chunks.length,
          { s with baseDb := some chunks,
                   mergedDbs := fun _ => none,
                   embeds := s.embeds + chunks.length })
  else
    match subjectId with
    | some sid =>
      match s.store.subjects sid with
      | some db =>
        .ok (db.length,
          { s with subjectDbs := fun i => if i = sid then some db else s.subjectDbs i })
      | none =>
        if chunks = [] then
          .error (.valueError "No document content found after splitting")
        else
          .ok (chunks.length,
            { s with
                subjectDbs := fun i => if i = sid then some chunks else s.subjectDbs i,
                mergedDbs := fun k =>
                  if k = MergeKey.subject sid then none else s.mergedDbs k,
                embeds := s.embeds + chunks.length })
    | none =>
      match userId with
      | some uid =>
        match s.store.students uid with
        | some db =>
          .ok (db.length,
            { s with studentDbs := fun u => if u = uid then some db else s.studentDbs u })
        | none =>
          if chunks = [] then
            .error (.valueError "No document content found after splitting")
          else
            .ok (chunks.length,
              { s with
                  studentDbs := fun u => if u = uid then some chunks else s.studentDbs u,
                  mergedDbs := fun k =>
                    if k = MergeKey.student uid then none else s.mergedDbs k,
                  embeds := s.embeds + chunks.length })
      | none => .error (.valueError "Must specify either is_base=True, subject_id, or user_id")

/-- `merge_vector_dbs(db1, db2)` (lines 152-175): collects the full
document lists of both stores and rebuilds one index over their
concatenation with `FAISS.from_documents`, which embeds every document
again.  Returns the merged store together with the number of
embedding calls it performs. -/
def merge_vector_dbs (db1 db2 : VectorDB) : VectorDB × Nat :=
  let allDocs := db1 ++ db2
  (allDocs, allDocs.length)

/-- The lazy base load at the top of `get_hierarchical_db`
(lines 195-196): if `_base_vector_db` is `None` and a base index is
persisted, load it (no embedding). -/
def loadBase (s : RagState) : RagState :=
  match s.baseDb, s.store.base with
  | none, some db => { s with baseDb := some db }
  | _, _ => s

/-- The shared body of Case 1/Case 2 of `get_hierarchical_db`
(lines 202-232): if no merged DB is cached for `key` and the base DB is
present, merge the scope DB with the base DB and cache the result; then
return the cached merge if present, else the bare scope DB. -/
def scopePath (s : RagState) (key : MergeKey) (own : VectorDB) :
    Option VectorDB × RagState :=
  let s1 :=
    match s.mergedDbs key, s.baseDb with
    | none, some bdb =>
      { s with
          mergedDbs := fun k =>
            if k = key then some (merge_vector_dbs own bdb).1 else s.mergedDbs k,
          embeds := s.embeds + (merge_vector_dbs own bdb).2 }
    | _, _ => s
  match s1.mergedDbs key with
  | some m => (some m, s1)
  | none => (some own, s1)

/-- Case 3 of `get_hierarchical_db` (lines 234-239): fall back to the
base DB, else raise. -/
def resolveBaseCase (s : RagState) : Except RagError (Option VectorDB × RagState) :=
  match s.baseDb with
  | some b => .ok (some b, s)
  | none => .error (.valueError "No vector database available for this context")

/-- Case 2 of `get_hierarchical_db` (lines 218-232). -/
def resolveSubjectCase (s : RagState) (subjectId : Option Nat) :
    Except RagError (Option VectorDB × RagState) :=
  match subjectId with
  | some sid =>
    match s.subjectDbs sid with
    | some db => .ok (scopePath s (.subject sid) db)
    | none => resolveBaseCase s
  | none => resolveBaseCase s

/-- Case 1 of `get_hierarchical_db` (lines 202-216). -/
def resolveStudentCase (s : RagState) (subjectId userId : Option Nat) :
    Except RagError (Option VectorDB × RagState) :=
  match userId with
  | some uid =>
    match s.studentDbs uid with
    | some db => .ok (scopePath s (.student uid) db)
    | none => resolveSubjectCase s subjectId
  | none => resolveSubjectCase s subjectId

/-- `get_hierarchical_db(subject_id, user_id)` (lines 178-239).
Note the no-context branch returns `_base_vector_db` as-is — which is
`None` when the base DB was never built. -/
def get_hierarchical_db (s0 : RagState) (subjectId userId : Option Nat) :
    Except RagError (Option VectorDB × RagState) :=
  let s := loadBase s0
  match subjectId, userId with
  | none, none => .ok (s.baseDb, s)
  | _, _ => resolveStudentCase s subjectId userId

/-- One external call into the hierarchy manager. -/
inductive Op where
  | create (chunks : List String) (subjectId userId : Option Nat) (isBase : Bool)
  | resolve (subjectId userId : Option Nat)

/-- Effect of one call on the module state (a raised `ValueError`
happens before any state mutation in both functions, so the state is
unchanged on error). -/
def step (s : RagState) : Op → RagState
  | .create chunks si ui b =>
    match create_vector_db s chunks si ui b with
    | .ok (_, s') => s'
    | .error _ => s
  | .resolve si ui =>
    match get_hierarchical_db s si ui with
    | .ok (_, s') => s'
    | .error _ => s

/-- Run a sequence of calls. -/
def run (s : RagState) (ops : List Op) : RagState := ops.foldl step s

/-- The three index tiers, with `create_vector_db`'s corresponding
argument spelling. -/
inductive Tier where
  | base
  | subject (id : Nat)
  | student (id : Nat)

def createFor (s : RagState) (chunks : List String) : Tier → Except RagError (Nat × RagState)
  | .base => create_vector_db s chunks none none true
  | .subject i => create_vector_db s chunks (some i) none false
  | .student u => create_vector_db s chunks none (some u) false

def storedAt (s : RagState) : Tier → Option VectorDB
  | .base => s.store.base
  | .subject i => s.store.subjects i
  | .student u => s.store.students u

/-- The scope handle a merge-cache key refers to. -/
def scopeDb (s : RagState) : MergeKey → Option VectorDB
  | .subject i => s.subjectDbs i
  | .student u => s.studentDbs u

/-- A disk store holding only a persisted base index with one chunk. -/
def storeWithBase : DiskStore := ⟨some ["doc"], fun _ => none, fun _ => none⟩

/-- Concrete state: a one-chunk base handle and a one-chunk handle for
student 1, with an empty merge cache. -/
def mergeCostState : RagState :=
  { store := emptyStore
    baseDb := some ["base-doc"]
    subjectDbs := fun _ => none
    studentDbs := fun u => if u = 1 then some ["student-doc"] else none
    mergedDbs := fun _ => none
    embeds := 0 }

/-- Concrete state: base, subject 1 and student 2 handles all live,
with both scopes' merges cached. -/
def twoMergesState : RagState :=
  { store := emptyStore
    baseDb := some ["b"]
    subjectDbs := fun i => if i = 1 then some ["s1"] else none
    studentDbs := fun u => if u = 2 then some ["u2"] else none
    mergedDbs := fun k =>
      if k = MergeKey.subject 1 then some ["s1", "b"]
      else if k = MergeKey.student 2 then some ["u2", "b"] else none
    embeds := 0 }

/-- `twoMergesState` with its merge cache cleared (the state right
after a fresh base rebuild would leave the cache like this). -/
def freshCacheState : RagState :=
  { twoMergesState with mergedDbs := fun _ => none }

/-- The state a fresh base build from the empty initial state produces. -/
def afterBaseBuild : RagState :=
  { initState emptyStore with baseDb := some ["c"], embeds := 1 }

/-- The state a fresh subject-1 build at `twoMergesState` produces:
the handle is registered and exactly the subject-1 merge entry is
dropped. -/
def afterSubjectBuild : RagState :=
  { twoMergesState with
      subjectDbs := fun i => if i = 1 then some ["c"] else twoMergesState.subjectDbs i
      mergedDbs := fun k =>
        if k = MergeKey.subject 1 then none else twoMergesState.mergedDbs k
      embeds := twoMergesState.embeds + 1 }

/-- The state a fresh student-2 build at `twoMergesState` produces. -/
def afterStudentBuild : RagState :=
  { twoMergesState with
      studentDbs := fun u => if u = 2 then some ["c"] else twoMergesState.studentDbs u
      mergedDbs := fun k =>
        if k = MergeKey.student 2 then none else twoMergesState.mergedDbs k
      embeds := twoMergesState.embeds + 1 }

/-- A concrete call history: build the base, then build student 1. -/
def c4Ops : List Op := [Op.create ["b"] none none true, Op.create ["a"] none (some 1) false]

def c4State : RagState := run (initState emptyStore) c4Ops

/-- The state after additionally resolving student 1 (the first merge). -/
def c4Resolved : RagState := (scopePath c4State (MergeKey.student 1) ["a"]).2

/-- Reachability invariant of the module state (used for the merge
consistency claim): handle tables agree with the immutable disk store,
no merge entry exists while the base handle is absent, and every cached
merge entry is exactly the concatenation of its two current sources. -/
structure Inv (s : RagState) : Prop where
  baseCoh : ∀ d, s.store.base = some d → s.baseDb = none ∨ s.baseDb = some d
  subjCoh : ∀ i d, s.store.subjects i = some d →
    s.subjectDbs i = none ∨ s.subjectDbs i = some d
  studCoh : ∀ u d, s.store.students u = some d →
    s.studentDbs u = none ∨ s.studentDbs u = some d
  noBase : s.baseDb = none → ∀ k, s.mergedDbs k = none
  consistent : ∀ k m, s.mergedDbs k = some m →
    ∃ own bdb, scopeDb s k = some own ∧ s.baseDb = some bdb ∧ m = own ++ bdb

/-! ## Part 2 — the quiz-generation parser (rag_chain.py lines 458-726)

The parse step of `generate_quiz_questions` is transcribed over
`List Char`.  Python string primitives (`strip`, `split`, `find`,
`startswith`, `in`, `re.match` on the concrete patterns used) are
implemented directly; every matcher below names the source line it
embeds. -/

/-- Python `\s` for the characters that can occur in a split line. -/
def isSpaceC (c : Char) : Bool :=
  c = ' ' || c = '\t' || c = '\n' || c = '\r' || c = '\x0b' || c = '\x0c'

/-- Does `l` start with the token `tok`? (Python `startswith`.) -/
def hasLead : List Char → List Char → Bool
  | [], _ => true
  | _ :: _, [] => false
  | a :: as, b :: bs => (a == b) && hasLead as bs

/-- Split at the first occurrence of the (non-empty) token: the part
before and the part after it (Python `split(tok, 1)` when the token
occurs; `none` mirrors `tok not in s`). -/
def splitFirstC (sep : List Char) : List Char → Option (List Char × List Char)
  | [] => none
  | c :: rest =>
    if hasLead sep (c :: rest) then some ([], (c :: rest).drop sep.length)
    else
      match splitFirstC sep rest with
      | some (pre, post) => some (c :: pre, post)
      | none => none

/-- Python `tok in s`. -/
def containsTok (tok l : List Char) : Bool := (splitFirstC tok l).isSome

/-- Remove trailing characters satisfying `p`, keeping the head of the
list in place (right half of Python `strip`). -/
def dropEndWhile (p : Char → Bool) : List Char → List Char
  | [] => []
  | c :: rest =>
    match dropEndWhile p rest with
    | [] => if p c then [] else [c]
    | r => c :: r

/-- Python `s.strip()`. -/
def trimC (l : List Char) : List Char := dropEndWhile isSpaceC (l.dropWhile isSpaceC)

def isStarSpace (c : Char) : Bool := c = '*' || c = ' '

/-- Python `s.strip("* ")` (line 632/636). -/
def stripStarSpace (l : List Char) : List Char :=
  dropEndWhile isStarSpace (l.dropWhile isStarSpace)

/-- Python `s.split("\n")`. -/
def splitNL : List Char → List (List Char)
  | [] => [[]]
  | c :: rest =>
    if c = '\n' then [] :: splitNL rest
    else
      match splitNL rest with
      | [] => [[c]]
      | l :: ls => (c :: l) :: ls

/-- Python `s.split(sep)` for a non-empty separator; the fuel always
bounds the list length, so the zero-fuel arm is never reached. -/
def splitAllAux (sep : List Char) : Nat → List Char → List Char → List (List Char)
  | _, [], acc => [acc.reverse]
  | 0, l, acc => [acc.reverse ++ l]
  | fuel + 1, c :: rest, acc =>
    if hasLead sep (c :: rest) then
      acc.reverse :: splitAllAux sep fuel ((c :: rest).drop sep.length) []
    else splitAllAux sep fuel rest (c :: acc)

def splitAllC (sep l : List Char) : List (List Char) := splitAllAux sep l.length l []

def isDigitC (c : Char) : Bool := '0' ≤ c && c ≤ '9'

/-- Match `Question \d+(?:\*\*)?` at the head of the list and return
the remainder (line 575's pattern after the optional leading `**`). -/
def qNumTail (l : List Char) : Option (List Char) :=
  if hasLead "Question ".data l then
    match l.drop 9 with
    | c :: rest =>
      if isDigitC c then
        let after := rest.dropWhile isDigitC
        if hasLead "**".data after then some (after.drop 2) else some after
      else none
    | [] => none
  else none

/-- Match `(?:\*\*)?Question \d+(?:\*\*)?` at the head of the list.
(When the leading `**` is present but the rest fails, the regex also
fails without it, since `Q` cannot match `*`.) -/
def qHeaderTail (l : List Char) : Option (List Char) :=
  if hasLead "**".data l then qNumTail (l.drop 2) else qNumTail l

/-- Python `re.split(r"(?:\*\*)?Question \d+(?:\*\*)?", s)` (line 575);
every header match consumes at least ten characters, so the fuel again
bounds the list length. -/
def splitQHeaderAux : Nat → List Char → List Char → List (List Char)
  | _, [], acc => [acc.reverse]
  | 0, l, acc => [acc.reverse ++ l]
  | fuel + 1, c :: rest, acc =>
    match qHeaderTail (c :: rest) with
    | some after => acc.reverse :: splitQHeaderAux fuel after []
    | none => splitQHeaderAux fuel rest (c :: acc)

def splitQHeaderC (l : List Char) : List (List Char) := splitQHeaderAux l.length l []

/-- The `options` dict of the parser: at most one entry per label. -/
structure Opts where
  a : Option (List Char)
  b : Option (List Char)
  c : Option (List Char)
  d : Option (List Char)
deriving DecidableEq

/-- One step of the option-label if/elif chain of the alternative
branch (lines 599-626), on a single line: `A:`/`B:`/`C:`/`D:` on the
stripped line, then `A.`/`A)`, then `A` followed by whitespace. -/
def optUpdate (o : Opts) (line : List Char) : Opts :=
  match trimC line with
  | 'A' :: ':' :: r => { o with a := some (trimC r) }
  | 'B' :: ':' :: r => { o with b := some (trimC r) }
  | 'C' :: ':' :: r => { o with c := some (trimC r) }
  | 'D' :: ':' :: r => { o with d := some (trimC r) }
  | 'A' :: '.' :: r => { o with a := some (trimC r) }
  | 'A' :: ')' :: r => { o with a := some (trimC r) }
  | 'B' :: '.' :: r => { o with b := some (trimC r) }
  | 'B' :: ')' :: r => { o with b := some (trimC r) }
  | 'C' :: '.' :: r => { o with c := some (trimC r) }
  | 'C' :: ')' :: r => { o with c := some (trimC r) }
  | 'D' :: '.' :: r => { o with d := some (trimC r) }
  | 'D' :: ')' :: r => { o with d := some (trimC r) }
  | 'A' :: ch :: r => if isSpaceC ch then { o with a := some (trimC r) } else o
  | 'B' :: ch :: r => if isSpaceC ch then { o with b := some (trimC r) } else o
  | 'C' :: ch :: r => if isSpaceC ch then { o with c := some (trimC r) } else o
  | 'D' :: ch :: r => if isSpaceC ch then { o with d := some (trimC r) } else o
  | _ => o

/-- The correct-answer if/elif chain of the alternative branch
(lines 628-649) on the raw line: `**CORRECT:`, then `CORRECT:`, then
`CORRECT ANSWER:` (whose extractor takes the first `[A-D]` character).
The source's third arm, the regex `\*\*CORRECT:\s*([A-D])\*\*`, is
unreachable — any line it matches contains `**CORRECT:` and is taken
by the first arm — and is therefore not represented. -/
def correctUpdate (cur : Option (List Char)) (line : List Char) : Option (List Char) :=
  match splitFirstC "**CORRECT:".data line with
  | some (_, post) =>
    let p := trimC post
    if p = [] then cur else some (stripStarSpace p)
  | none =>
    match splitFirstC "CORRECT:".data line with
    | some (_, post) =>
      let p := trimC post
      if p = [] then cur else some (stripStarSpace p)
    | none =>
      match splitFirstC "CORRECT ANSWER:".data line with
      | some (_, post) =>
        let p := trimC post
        if p = [] then cur
        else
          match p.find? (fun c => c = 'A' || c = 'B' || c = 'C' || c = 'D') with
          | some ch => some [ch]
          | none => cur
      | none => cur

/-- Markers whose presence in the first line blocks its use as the
question text (lines 593-597). -/
def hasMarker (line : List Char) : Bool :=
  containsTok "A:".data line || containsTok "B:".data line || containsTok "C:".data line ||
    containsTok "D:".data line || containsTok "CORRECT:".data line

/-- The per-line scan of the alternative branch: the option chain and
the correct-answer chain run independently on every line. -/
def altScan (lines : List (List Char)) : Opts × Option (List Char) :=
  lines.foldl (fun st line => (optUpdate st.1 line, correctUpdate st.2 line))
    (⟨none, none, none, none⟩, none)

/-- One validated question block: the question text, the four option
texts and the declared correct label. -/
structure ParsedBlock where
  question : List Char
  optA : List Char
  optB : List Char
  optC : List Char
  optD : List Char
  correct : List Char
deriving DecidableEq

/-- Python `correct_answer in options` once all four labels are
present: the label dict has exactly the keys A-D. -/
def isLabel (ca : List Char) : Bool :=
  ca == ['A'] || ca == ['B'] || ca == ['C'] || ca == ['D']

/-- The alternative branch (lines 586-663): question text from the
first line when it carries no marker, per-line scans, then the
validation gate (non-empty question, exactly four options, non-empty
declared label that is one of the extracted labels). -/
def parseBlockAlt (block : List Char) : Option ParsedBlock :=
  let lines := splitNL block
  let q : Option (List Char) :=
    match lines with
    | [] => none
    | l0 :: _ => if hasMarker l0 then none else some (trimC l0)
  let st := altScan lines
  match q, st.1.a, st.1.b, st.1.c, st.1.d, st.2 with
  | some qt, some ta, some tb, some tc, some td, some ca =>
    if qt = [] ∨ ca = [] then none
    else if isLabel ca then some ⟨qt, ta, tb, tc, td, ca⟩ else none
  | _, _, _, _, _, _ => none

/-- One step of the original-format if/elif chain (lines 675-685), on
an unstripped line: `A:` … `D:` and `CORRECT:` share one chain. -/
def origUpdate (st : Opts × Option (List Char)) (part : List Char) :
    Opts × Option (List Char) :=
  if hasLead "A:".data part then ({ st.1 with a := some (trimC (part.drop 2)) }, st.2)
  else if hasLead "B:".data part then ({ st.1 with b := some (trimC (part.drop 2)) }, st.2)
  else if hasLead "C:".data part then ({ st.1 with c := some (trimC (part.drop 2)) }, st.2)
  else if hasLead "D:".data part then ({ st.1 with d := some (trimC (part.drop 2)) }, st.2)
  else if hasLead "CORRECT:".data part then (st.1, some (trimC (part.drop 8)))
  else st

/-- The original-format branch (lines 664-694): the block split at the
first `"\nA:"` into question text and options text; note its gate does
not test the question text. -/
def parseBlockOrig (pre post : List Char) : Option ParsedBlock :=
  let qt := trimC pre
  let optsText := trimC ('\n' :: 'A' :: ':' :: post)
  let parts := splitNL optsText
  let st := parts.foldl origUpdate (⟨none, none, none, none⟩, none)
  match st.1.a, st.1.b, st.1.c, st.1.d, st.2 with
  | some ta, some tb, some tc, some td, some ca =>
    if ca = [] then none
    else if isLabel ca then some ⟨qt, ta, tb, tc, td, ca⟩ else none
  | _, _, _, _, _ => none

/-- One block of the parse loop (lines 581-694): original format when
`"\nA:"` occurs in the block, else the alternative format. -/
def parseBlockC (block : List Char) : Option ParsedBlock :=
  match splitFirstC ('\n' :: 'A' :: ':' :: []) block with
  | some (pre, post) => parseBlockOrig pre post
  | none => parseBlockAlt block

/-- One stored answer option (`Answer(text=…, is_correct=…)`). -/
structure AnswerRec where
  text : String
  isCorrect : Bool
deriving DecidableEq

/-- One stored question with its four answers. -/
structure QuestionRec where
  text : String
  answers : List AnswerRec
deriving DecidableEq

/-- Records built from an accepted block (lines 697-710): one answer
per extracted option, `is_correct` iff its label is the declared
correct label. -/
def toRecord (pb : ParsedBlock) : QuestionRec :=
  { text := String.mk pb.question
    answers :=
      [⟨String.mk pb.optA, pb.correct == ['A']⟩,
       ⟨String.mk pb.optB, pb.correct == ['B']⟩,
       ⟨String.mk pb.optC, pb.correct == ['C']⟩,
       ⟨String.mk pb.optD, pb.correct == ['D']⟩] }

def parseRec (b : List Char) : Option QuestionRec := (parseBlockC b).map toRecord

/-- Strip any preamble before the first `QUESTION:` (lines 564-566;
only applied when the marker occurs). -/
def stripPreamble (raw : List Char) : List Char :=
  match splitFirstC "QUESTION:".data raw with
  | some (_, post) => "QUESTION:".data ++ post
  | none => raw

/-- Block formation (lines 563-578): split on `QUESTION:` after
stripping the preamble; when the marker is absent (so the primary
split would yield a single block) fall back to the numbered-header
split; then strip each block and drop empties. -/
def makeBlocks (raw : List Char) : List (List Char) :=
  let bs :=
    if containsTok "QUESTION:".data raw then splitAllC "QUESTION:".data (stripPreamble raw)
    else splitQHeaderC raw
  (bs.map trimC).filter (fun b => !b.isEmpty)

/-- The accept/skip/truncate loop over blocks (lines 581-716): a
failed gate counts one skip (the source logs one warning and
continues); an accepted block is appended and the loop stops as soon
as `num_questions` records exist. -/
def parseGo (numQ : Nat) : List (List Char) → List QuestionRec → Nat → List QuestionRec × Nat
  | [], acc, sk => (acc.reverse, sk)
  | b :: bs, acc, sk =>
    match parseRec b with
    | none => parseGo numQ bs acc (sk + 1)
    | some q =>
      if numQ ≤ acc.length + 1 then ((q :: acc).reverse, sk)
      else parseGo numQ bs (q :: acc) sk

/-- The whole parse step of `generate_quiz_questions` on the raw model
output: the accepted records and the number of skipped blocks. -/
def parseQuizOutput (raw : String) (numQuestions : Nat) : List QuestionRec × Nat :=
  parseGo numQuestions (makeBlocks raw.data) [] 0

/-- Parameter validation at the top of `generate_quiz_questions`
(lines 471-475). -/
def validateQuizParams (numQuestions difficultyLevel : Int) : Except RagError Unit :=
  if numQuestions ≤ 0 ∨ 20 < numQuestions then
    .error (.valueError "Number of questions must be between 1 and 20")
  else if difficultyLevel < 1 ∨ 5 < difficultyLevel then
    .error (.valueError "Difficulty level must be between 1 and 5")
  else .ok ()

/-- `generate_quiz_questions` restricted to what is in scope here:
validation first, then the parse of the raw completion text (the
retrieval chain, the subject/quiz lookups and the DB writes are
external collaborators). -/
def generate_quiz_questions (rawOutput : String) (numQuestions difficultyLevel : Int) :
    Except RagError (List QuestionRec × Nat) :=
  match validateQuizParams numQuestions difficultyLevel with
  | .error e => .error e
  | .ok _ => .ok (parseQuizOutput rawOutput numQuestions.toNat)

/-- Head of the list is not whitespace (trivially true for `[]`). -/
def leadOk : List Char → Bool
  | [] => true
  | c :: _ => !isSpaceC c

/-- A concrete well-formed model output with one question block. -/
def sampleRaw : String := "QUESTION: Q?\nA: 1\nB: 2\nC: 3\nD: 4\nCORRECT: A"

/-- The record the parse step produces from `sampleRaw`. -/
def sampleRec : QuestionRec :=
  ⟨"Q?", [⟨"1", true⟩, ⟨"2", false⟩, ⟨"3", false⟩, ⟨"4", false⟩]⟩

example :
    (get_hierarchical_db (initState emptyStore) none none).map (fun p => p.1) =
      .ok none := rfl

example :
    (create_vector_db (initState emptyStore) ["c1", "c2"] none none true).map
        (fun p => (p.1, p.2.baseDb, p.2.store.base, p.2.embeds)) =
      .ok (2, some ["c1", "c2"], none, 2) := rfl

/-! ### Helper lemmas about `loadBase` and `scopePath` -/

theorem loadBase_store (s : RagState) : (loadBase s).store = s.store := by
  unfold loadBase
  cases hb : s.baseDb <;> cases hst : s.store.base <;> rfl

theorem loadBase_mergedDbs (s : RagState) : (loadBase s).mergedDbs = s.mergedDbs := by
  unfold loadBase
  cases hb : s.baseDb <;> cases hst : s.store.base <;> rfl

theorem loadBase_embeds (s : RagState) : (loadBase s).embeds = s.embeds := by
  unfold loadBase
  cases hb : s.baseDb <;> cases hst : s.store.base <;> rfl

theorem loadBase_subjectDbs (s : RagState) : (loadBase s).subjectDbs = s.subjectDbs := by
  unfold loadBase
  cases hb : s.baseDb <;> cases hst : s.store.base <;> rfl

theorem loadBase_studentDbs (s : RagState) : (loadBase s).studentDbs = s.studentDbs := by
  unfold loadBase
  cases hb : s.baseDb <;> cases hst : s.store.base <;> rfl

theorem loadBase_of_some {s : RagState} {b : VectorDB} (h : s.baseDb = some b) :
    loadBase s = s := by
  unfold loadBase
  rw [h]

theorem loadBase_of_store_none {s : RagState} (h : s.store.base = none) :
    loadBase s = s := by
  unfold loadBase
  rw [h]
  cases s.baseDb <;> rfl

theorem loadBase_load {s : RagState} {db : VectorDB} (h1 : s.baseDb = none)
    (h2 : s.store.base = some db) : loadBase s = { s with baseDb := some db } := by
  unfold loadBase
  rw [h1, h2]

theorem scopePath_cached {s : RagState} {key : MergeKey} {m : VectorDB}
    (h : s.mergedDbs key = some m) (own : VectorDB) :
    scopePath s key own = (some m, s) := by
  unfold scopePath
  rw [h]
  cases s.baseDb <;> simp [h]

theorem scopePath_compute {s : RagState} {key : MergeKey} {bdb : VectorDB}
    (h : s.mergedDbs key = none) (hb : s.baseDb = some bdb) (own : VectorDB) :
    scopePath s key own =
      (some (own ++ bdb),
       { s with
           mergedDbs := fun k => if k = key then some (own ++ bdb) else s.mergedDbs k,
           embeds := s.embeds + (own ++ bdb).length }) := by
  unfold scopePath merge_vector_dbs
  rw [h, hb]
  simp

theorem scopePath_bare {s : RagState} {key : MergeKey}
    (h : s.mergedDbs key = none) (hb : s.baseDb = none) (own : VectorDB) :
    scopePath s key own = (some own, s) := by
  unfold scopePath
  rw [h, hb]
  simp [h]

/-! ### C1: merge-cache invalidation -/

/-- **C1.** For every state of the hierarchy manager (hence after any
sequence of `create_vector_db` / `get_hierarchical_db` calls): a fresh
build for the base tier empties the whole merged-DB cache; a fresh
build for a subject or student scope removes exactly the one entry
keyed by that scope and leaves every other entry in place; after the
cache is emptied, the next resolution of any scope with a live handle
and a live base recomputes its merge (a new cache entry appears and the
embedding counter pays for the rebuild); and a scope whose cache entry
is still present is served that entry with no recomputation. -/
theorem create_invalidation_frame :
    (∀ (s : RagState) (chunks : List String) (n : Nat) (s' : RagState),
       s.store.base = none → chunks ≠ [] →
       create_vector_db s chunks none none true = .ok (n, s') →
       ∀ k, s'.mergedDbs k = none) ∧
    (∀ (s : RagState) (chunks : List String) (sid n : Nat) (s' : RagState),
       s.store.subjects sid = none → chunks ≠ [] →
       create_vector_db s chunks (some sid) none false = .ok (n, s') →
       s'.mergedDbs (.subject sid) = none ∧
       ∀ k, k ≠ MergeKey.subject sid → s'.mergedDbs k = s.mergedDbs k) ∧
    (∀ (s : RagState) (chunks : List String) (uid n : Nat) (s' : RagState),
       s.store.students uid = none → chunks ≠ [] →
       create_vector_db s chunks none (some uid) false = .ok (n, s') →
       s'.mergedDbs (.student uid) = none ∧
       ∀ k, k ≠ MergeKey.student uid → s'.mergedDbs k = s.mergedDbs k) ∧
    (∀ (s : RagState) (u : Nat) (sdb bdb : VectorDB),
       (∀ k, s.mergedDbs k = none) → s.baseDb = some bdb → s.studentDbs u = some sdb →
       ∃ s₂, get_hierarchical_db s none (some u) = .ok (some (sdb ++ bdb), s₂) ∧
         s₂.embeds = s.embeds + (sdb ++ bdb).length ∧
         s₂.mergedDbs (.student u) = some (sdb ++ bdb)) ∧
    (∀ (s : RagState) (i : Nat) (sdb bdb : VectorDB),
       (∀ k, s.mergedDbs k = none) → s.baseDb = some bdb → s.subjectDbs i = some sdb →
       ∃ s₂, get_hierarchical_db s (some i) none = .ok (some (sdb ++ bdb), s₂) ∧
         s₂.embeds = s.embeds + (sdb ++ bdb).length ∧
         s₂.mergedDbs (.subject i) = some (sdb ++ bdb)) ∧
    (∀ (s : RagState) (u : Nat) (own m : VectorDB),
       s.studentDbs u = some own → s.mergedDbs (.student u) = some m →
       ∃ s', get_hierarchical_db s none (some u) = .ok (some m, s') ∧
         s'.embeds = s.embeds ∧ s'.mergedDbs = s.mergedDbs) ∧
    (∀ (s : RagState) (i : Nat) (own m : VectorDB),
       s.subjectDbs i = some own → s.mergedDbs (.subject i) = some m →
       ∃ s', get_hierarchical_db s (some i) none = .ok (some m, s') ∧
         s'.embeds = s.embeds ∧ s'.mergedDbs = s.mergedDbs) := by
  refine ⟨?_, ?_, ?_, ?_, ?_, ?_, ?_⟩
  · intro s chunks n s' hStore hne hOk k
    simp [create_vector_db, hStore, hne] at hOk
    rw [← hOk.2]
  · intro s chunks sid n s' hStore hne hOk
    simp [create_vector_db, hStore, hne] at hOk
    rw [← hOk.2]
    refine ⟨by simp, fun k hk => by simp [hk]⟩
  · intro s chunks uid n s' hStore hne hOk
    simp [create_vector_db, hStore, hne] at hOk
    rw [← hOk.2]
    refine ⟨by simp, fun k hk => by simp [hk]⟩
  · intro s u sdb bdb hEmpty hBase hOwn
    refine ⟨(scopePath s (.student u) sdb).2, ?_, ?_, ?_⟩
    · simp only [get_hierarchical_db, loadBase_of_some hBase, resolveStudentCase, hOwn]
      rw [scopePath_compute (hEmpty _) hBase]
    · rw [scopePath_compute (hEmpty _) hBase]
    · rw [scopePath_compute (hEmpty _) hBase]
      simp
  · intro s i sdb bdb hEmpty hBase hOwn
    refine ⟨(scopePath s (.subject i) sdb).2, ?_, ?_, ?_⟩
    · simp only [get_hierarchical_db, loadBase_of_some hBase, resolveStudentCase,
        resolveSubjectCase, hOwn]
      rw [scopePath_compute (hEmpty _) hBase]
    · rw [scopePath_compute (hEmpty _) hBase]
    · rw [scopePath_compute (hEmpty _) hBase]
      simp
  · intro s u own m hOwn hCache
    have hc : (loadBase s).mergedDbs (MergeKey.student u) = some m := by
      rw [loadBase_mergedDbs]; exact hCache
    refine ⟨(scopePath (loadBase s) (.student u) own).2, ?_, ?_, ?_⟩
    · simp only [get_hierarchical_db, resolveStudentCase, loadBase_studentDbs, hOwn]
      rw [scopePath_cached hc]
    · rw [scopePath_cached hc, loadBase_embeds]
    · rw [scopePath_cached hc, loadBase_mergedDbs]
  · intro s i own m hOwn hCache
    have hc : (loadBase s).mergedDbs (MergeKey.subject i) = some m := by
      rw [loadBase_mergedDbs]; exact hCache
    refine ⟨(scopePath (loadBase s) (.subject i) own).2, ?_, ?_, ?_⟩
    · simp only [get_hierarchical_db, resolveStudentCase, resolveSubjectCase,
        loadBase_subjectDbs, hOwn]
      rw [scopePath_cached hc]
    · rw [scopePath_cached hc, loadBase_embeds]
    · rw [scopePath_cached hc, loadBase_mergedDbs]

/-! ### C2: idempotence of `create_vector_db` on an existing persisted index -/

theorem double_if_update (f : Nat → Option VectorDB) (sid : Nat) (d : Option VectorDB) :
    (fun i => if i = sid then d else (fun j => if j = sid then d else f j) i) =
      (fun i => if i = sid then d else f i) := by
  funext i
  by_cases hi : i = sid <;> simp [hi]

/-- **C2.** For every (tier, scope) with a non-empty persisted index,
`create_vector_db` takes the load path: it returns the persisted chunk
count, makes no embedding call, and a second call with identical chunk
batches returns the same count and leaves the state exactly as after
the first call (no duplicate vectors, no redundant embedding). -/
theorem ensureIndex_idempotent :
    ∀ (s : RagState) (chunks : List String) (t : Tier) (d : VectorDB),
      storedAt s t = some d → d ≠ [] →
      ∃ s₁ s₂, createFor s chunks t = .ok (d.length, s₁) ∧
        createFor s₁ chunks t = .ok (d.length, s₂) ∧
        s₁.embeds = s.embeds ∧ s₂ = s₁ := by
  intro s chunks t d hStore hne
  cases t with
  | base =>
    simp only [storedAt] at hStore
    refine ⟨{ s with baseDb := some d }, { s with baseDb := some d }, ?_, ?_, rfl, rfl⟩
    · simp [createFor, create_vector_db, hStore]
    · simp [createFor, create_vector_db, hStore]
  | subject sid =>
    simp only [storedAt] at hStore
    refine ⟨{ s with subjectDbs := fun i => if i = sid then some d else s.subjectDbs i },
      { s with subjectDbs := fun i => if i = sid then some d else s.subjectDbs i },
      ?_, ?_, rfl, rfl⟩
    · simp [createFor, create_vector_db, hStore]
    · simp [createFor, create_vector_db, hStore]
      exact double_if_update s.subjectDbs sid (some d)
  | student uid =>
    simp only [storedAt] at hStore
    refine ⟨{ s with studentDbs := fun u => if u = uid then some d else s.studentDbs u },
      { s with studentDbs := fun u => if u = uid then some d else s.studentDbs u },
      ?_, ?_, rfl, rfl⟩
    · simp [createFor, create_vector_db, hStore]
    · simp [createFor, create_vector_db, hStore]
      exact double_if_update s.studentDbs uid (some d)

/-! ### C3: merges re-embed — the "no new embeddings" claim fails -/

/-- **C3 counterexample.** Resolving student 1 at `mergeCostState`
builds the merged index via `FAISS.from_documents` over both document
sets, performing 2 embedding calls — not 0 as the claim states. -/
theorem merge_reembeds_counterexample :
    (get_hierarchical_db mergeCostState none (some 1)).map (fun p => (p.1, p.2.embeds)) =
      .ok (some ["student-doc", "base-doc"], 2) ∧ (2 : Nat) ≠ 0 :=
  ⟨rfl, by decide⟩

/-- **C3 amended.** A merge computed during `get_hierarchical_db`
re-embeds every document of both source indices: `merge_vector_dbs`
performs exactly `|db1| + |db2|` embedding calls (it rebuilds the
union with `FAISS.from_documents`), and a cache-miss resolution
increases the embedding counter by exactly that amount. -/
theorem merge_reembeds :
    (∀ db1 db2 : VectorDB, (merge_vector_dbs db1 db2).2 = db1.length + db2.length) ∧
    (∀ (s : RagState) (u : Nat) (sdb bdb : VectorDB),
      s.studentDbs u = some sdb → s.baseDb = some bdb →
      s.mergedDbs (.student u) = none →
      ∃ s', get_hierarchical_db s none (some u) = .ok (some (sdb ++ bdb), s') ∧
        s'.embeds = s.embeds + (sdb.length + bdb.length)) ∧
    (∀ (s : RagState) (i : Nat) (sdb bdb : VectorDB),
      s.subjectDbs i = some sdb → s.baseDb = some bdb →
      s.mergedDbs (.subject i) = none →
      ∃ s', get_hierarchical_db s (some i) none = .ok (some (sdb ++ bdb), s') ∧
        s'.embeds = s.embeds + (sdb.length + bdb.length)) := by
  refine ⟨fun db1 db2 => by simp [merge_vector_dbs], ?_, ?_⟩
  · intro s u sdb bdb hOwn hBase hMiss
    refine ⟨(scopePath s (.student u) sdb).2, ?_, ?_⟩
    · simp only [get_hierarchical_db, loadBase_of_some hBase, resolveStudentCase, hOwn]
      rw [scopePath_compute hMiss hBase]
    · rw [scopePath_compute hMiss hBase]
      simp
  · intro s i sdb bdb hOwn hBase hMiss
    refine ⟨(scopePath s (.subject i) sdb).2, ?_, ?_⟩
    · simp only [get_hierarchical_db, loadBase_of_some hBase, resolveStudentCase,
        resolveSubjectCase, hOwn]
      rw [scopePath_compute hMiss hBase]
    · rw [scopePath_compute hMiss hBase]
      simp

/-! ### C5: resolution fallback -/

/-- **C5 counterexample.** With no context and no base DB anywhere,
`get_hierarchical_db` returns Python `None` (modelled `.ok none`)
instead of raising the no-index `ValueError`. -/
theorem resolve_none_counterexample :
    get_hierarchical_db (initState emptyStore) none none =
      .ok (none, initState emptyStore) := rfl

/-- **C5 amended.** (1) With neither id, `get_hierarchical_db` returns
whatever the base slot holds after the lazy disk load — in particular
`none`, not an error, when the base was never built and is not on
disk; (2) a selected scope without its own handle falls back to the
base handle when one is loaded; (3) when neither the scope handle nor
any base index exists, it raises the no-index `ValueError`. -/
theorem resolve_fallback :
    (∀ s : RagState, get_hierarchical_db s none none = .ok ((loadBase s).baseDb, loadBase s)) ∧
    (∀ s : RagState, s.baseDb = none → s.store.base = none →
      get_hierarchical_db s none none = .ok (none, s)) ∧
    (∀ (s : RagState) (u : Nat) (b : VectorDB), s.studentDbs u = none → s.baseDb = some b →
      get_hierarchical_db s none (some u) = .ok (some b, s)) ∧
    (∀ (s : RagState) (i : Nat) (b : VectorDB), s.subjectDbs i = none → s.baseDb = some b →
      get_hierarchical_db s (some i) none = .ok (some b, s)) ∧
    (∀ (s : RagState) (u : Nat), s.studentDbs u = none → s.baseDb = none →
      s.store.base = none →
      get_hierarchical_db s none (some u) =
        .error (.valueError "No vector database available for this context")) ∧
    (∀ (s : RagState) (i : Nat), s.subjectDbs i = none → s.baseDb = none →
      s.store.base = none →
      get_hierarchical_db s (some i) none =
        .error (.valueError "No vector database available for this context")) := by
  refine ⟨fun s => rfl, ?_, ?_, ?_, ?_, ?_⟩
  · intro s h1 h2
    simp only [get_hierarchical_db, loadBase_of_store_none h2, h1]
  · intro s u b hOwn hBase
    simp [get_hierarchical_db, loadBase_of_some hBase, resolveStudentCase,
      resolveSubjectCase, resolveBaseCase, hOwn, hBase]
  · intro s i b hOwn hBase
    simp [get_hierarchical_db, loadBase_of_some hBase, resolveStudentCase,
      resolveSubjectCase, resolveBaseCase, hOwn, hBase]
  · intro s u hOwn hBase hStore
    simp [get_hierarchical_db, loadBase_of_store_none hStore, resolveStudentCase,
      resolveSubjectCase, resolveBaseCase, hOwn, hBase]
  · intro s i hOwn hBase hStore
    simp [get_hierarchical_db, loadBase_of_store_none hStore, resolveStudentCase,
      resolveSubjectCase, resolveBaseCase, hOwn, hBase]

/-! ### C6: no durable write happens on a fresh build -/

/-- **C6.** A successful fresh base build from the empty initial state
registers the in-memory handle and returns the chunk count, yet the
disk store is left exactly as before: `create_vector_db` contains no
`save_local` call, contradicting both its own docstring ("persist to
disk") and the durable-write claim. -/
theorem create_does_not_persist :
    (create_vector_db (initState emptyStore) ["chunk"] none none true).map
        (fun p => (p.1, p.2.baseDb, p.2.store.base)) =
      .ok (1, some ["chunk"], none) := rfl

/-! ### C9: individual tier takes precedence over topic tier -/

/-- **C9.** When both a subject id and a user id are supplied and the
student index exists, `get_hierarchical_db` behaves exactly as if the
subject id had not been passed, and the returned store is the
student-scoped result: the student+base merge when one is cached or
computable, else the bare student store. -/
theorem individual_precedence :
    ∀ (s : RagState) (sid u : Nat) (sdb : VectorDB),
      s.studentDbs u = some sdb →
      get_hierarchical_db s (some sid) (some u) = get_hierarchical_db s none (some u) ∧
      ∃ r s', get_hierarchical_db s (some sid) (some u) = .ok (some r, s') ∧
        (s'.mergedDbs (.student u) = some r ∨ r = sdb) := by
  intro s sid u sdb hOwn
  constructor
  · simp only [get_hierarchical_db, resolveStudentCase, loadBase_studentDbs, hOwn]
  · cases hc : (loadBase s).mergedDbs (.student u) with
    | some m =>
      refine ⟨m, loadBase s, ?_, Or.inl hc⟩
      simp only [get_hierarchical_db, resolveStudentCase, loadBase_studentDbs, hOwn]
      rw [scopePath_cached hc]
    | none =>
      cases hb : (loadBase s).baseDb with
      | some bdb =>
        refine ⟨sdb ++ bdb, (scopePath (loadBase s) (.student u) sdb).2, ?_, Or.inl ?_⟩
        · simp only [get_hierarchical_db, resolveStudentCase, loadBase_studentDbs, hOwn]
          rw [scopePath_compute hc hb]
        · rw [scopePath_compute hc hb]
          simp
      | none =>
        refine ⟨sdb, loadBase s, ?_, Or.inr rfl⟩
        simp only [get_hierarchical_db, resolveStudentCase, loadBase_studentDbs, hOwn]
        rw [scopePath_bare hc hb]

/-! ### C4: merge consistency via the reachability invariant -/

theorem scopeDb_eq {s t : RagState} (h1 : s.subjectDbs = t.subjectDbs)
    (h2 : s.studentDbs = t.studentDbs) : scopeDb s = scopeDb t := by
  funext k
  cases k <;> simp [scopeDb, h1, h2]

theorem inv_init (st : DiskStore) : Inv (initState st) := by
  refine ⟨?_, ?_, ?_, ?_, ?_⟩ <;> intros <;> simp_all [initState]

theorem inv_loadBase {s : RagState} (h : Inv s) : Inv (loadBase s) := by
  cases hb : s.baseDb with
  | some b => rw [loadBase_of_some hb]; exact h
  | none =>
    cases hst : s.store.base with
    | none => rw [loadBase_of_store_none hst]; exact h
    | some db =>
      rw [loadBase_load hb hst]
      refine ⟨?_, h.subjCoh, h.studCoh, ?_, ?_⟩
      · intro d hd
        right
        rw [hst] at hd
        cases hd
        rfl
      · intro hcontra
        cases hcontra
      · intro k m hm
        have := h.noBase hb k
        rw [this] at hm
        cases hm

theorem inv_create {s : RagState} {chunks : List String} {si ui : Option Nat} {bb : Bool}
    {n : Nat} {s' : RagState} (h : Inv s)
    (hOk : create_vector_db s chunks si ui bb = .ok (n, s')) : Inv s' := by
  unfold create_vector_db at hOk
  cases bb with
  | true =>
    cases hst : s.store.base with
    | some db =>
      simp only [hst, if_true, Except.ok.injEq, Prod.mk.injEq] at hOk
      rw [← hOk.2]
      refine ⟨?_, h.subjCoh, h.studCoh, ?_, ?_⟩
      · intro d hd
        right
        rw [hst] at hd
        cases hd
        rfl
      · intro hcontra
        cases hcontra
      · intro k m hm
        obtain ⟨own, bdb, hscope, hbase, hmeq⟩ := h.consistent k m hm
        have hdb : s.baseDb = some db := by
          rcases h.baseCoh db hst with hnone | hsome
          · rw [hnone] at hbase; cases hbase
          · exact hsome
        rw [hdb] at hbase
        injection hbase with hbd
        subst hbd
        refine ⟨own, db, ?_, rfl, hmeq⟩
        cases k <;> simpa [scopeDb] using hscope
    | none =>
      by_cases hch : chunks = []
      · simp [hst, hch] at hOk
      · simp only [hst, if_true, if_neg hch, Except.ok.injEq, Prod.mk.injEq] at hOk
        rw [← hOk.2]
        refine ⟨?_, h.subjCoh, h.studCoh, ?_, ?_⟩
        · intro d hd
          rw [hst] at hd
          cases hd
        · intro hcontra
          cases hcontra
        · intro k m hm
          cases hm
  | false =>
    cases si with
    | some sid =>
      cases hst : s.store.subjects sid with
      | some db =>
        simp only [Bool.false_eq_true, if_false, hst, Except.ok.injEq, Prod.mk.injEq] at hOk
        rw [← hOk.2]
        refine ⟨h.baseCoh, ?_, h.studCoh, h.noBase, ?_⟩
        · intro i d hd
          by_cases hi : i = sid
          · subst hi
            rw [hst] at hd
            cases hd
            right
            simp
          · simpa [hi] using h.subjCoh i d hd
        · intro k m hm
          obtain ⟨own, bdb, hscope, hbase, hmeq⟩ := h.consistent k m hm
          refine ⟨own, bdb, ?_, hbase, hmeq⟩
          cases k with
          | student u => simpa [scopeDb] using hscope
          | subject j =>
            simp only [scopeDb] at hscope ⊢
            by_cases hj : j = sid
            · subst hj
              have hown : own = db := by
                rcases h.subjCoh j db hst with hnone | hsome
                · rw [hnone] at hscope; cases hscope
                · rw [hsome] at hscope; injection hscope with he; exact he.symm
              simp [hown]
            · simp [hj, hscope]
      | none =>
        by_cases hch : chunks = []
        · simp [hst, hch] at hOk
        · simp only [Bool.false_eq_true, if_false, hst, if_neg hch, Except.ok.injEq,
            Prod.mk.injEq] at hOk
          rw [← hOk.2]
          refine ⟨h.baseCoh, ?_, h.studCoh, ?_, ?_⟩
          · intro i d hd
            by_cases hi : i = sid
            · subst hi
              rw [hst] at hd
              cases hd
            · simpa [hi] using h.subjCoh i d hd
          · intro hb k
            have := h.noBase hb k
            simp [this]
          · intro k m hm
            by_cases hk : k = MergeKey.subject sid
            · simp [hk] at hm
            · simp only [if_neg hk] at hm
              obtain ⟨own, bdb, hscope, hbase, hmeq⟩ := h.consistent k m hm
              refine ⟨own, bdb, ?_, hbase, hmeq⟩
              cases k with
              | student u => simpa [scopeDb] using hscope
              | subject j =>
                have hj : j ≠ sid := fun hj => hk (by rw [hj])
                simpa [scopeDb, hj] using hscope
    | none =>
      cases ui with
      | some uid =>
        cases hst : s.store.students uid with
        | some db =>
          simp only [Bool.false_eq_true, if_false, hst, Except.ok.injEq, Prod.mk.injEq] at hOk
          rw [← hOk.2]
          refine ⟨h.baseCoh, h.subjCoh, ?_, h.noBase, ?_⟩
          · intro u d hd
            by_cases hu : u = uid
            · subst hu
              rw [hst] at hd
              cases hd
              right
              simp
            · simpa [hu] using h.studCoh u d hd
          · intro k m hm
            obtain ⟨own, bdb, hscope, hbase, hmeq⟩ := h.consistent k m hm
            refine ⟨own, bdb, ?_, hbase, hmeq⟩
            cases k with
            | subject j => simpa [scopeDb] using hscope
            | student u =>
              simp only [scopeDb] at hscope ⊢
              by_cases hu : u = uid
              · subst hu
                have hown : own = db := by
                  rcases h.studCoh u db hst with hnone | hsome
                  · rw [hnone] at hscope; cases hscope
                  · rw [hsome] at hscope; injection hscope with he; exact he.symm
                simp [hown]
              · simp [hu, hscope]
        | none =>
          by_cases hch : chunks = []
          · simp [hst, hch] at hOk
          · simp only [Bool.false_eq_true, if_false, hst, if_neg hch, Except.ok.injEq,
              Prod.mk.injEq] at hOk
            rw [← hOk.2]
            refine ⟨h.baseCoh, h.subjCoh, ?_, ?_, ?_⟩
            · intro u d hd
              by_cases hu : u = uid
              · subst hu
                rw [hst] at hd
                cases hd
              · simpa [hu] using h.studCoh u d hd
            · intro hb k
              have := h.noBase hb k
              simp [this]
            · intro k m hm
              by_cases hk : k = MergeKey.student uid
              · simp [hk] at hm
              · simp only [if_neg hk] at hm
                obtain ⟨own, bdb, hscope, hbase, hmeq⟩ := h.consistent k m hm
                refine ⟨own, bdb, ?_, hbase, hmeq⟩
                cases k with
                | subject j => simpa [scopeDb] using hscope
                | student u =>
                  have hu : u ≠ uid := fun hu => hk (by rw [hu])
                  simpa [scopeDb, hu] using hscope
      | none => simp at hOk

theorem inv_scopePath {s : RagState} {key : MergeKey} {own : VectorDB} (h : Inv s)
    (hOwn : scopeDb s key = some own) : Inv (scopePath s key own).2 := by
  cases hc : s.mergedDbs key with
  | some m => rw [scopePath_cached hc]; exact h
  | none =>
    cases hb : s.baseDb with
    | none => rw [scopePath_bare hc hb]; exact h
    | some bdb =>
      rw [scopePath_compute hc hb]
      refine ⟨h.baseCoh, h.subjCoh, h.studCoh, ?_, ?_⟩
      · intro hcontra
        exact absurd (hb.symm.trans hcontra) (by simp)
      · intro k m hm
        by_cases hk : k = key
        · subst hk
          simp at hm
          exact ⟨own, bdb, hOwn, hb, hm.symm⟩
        · simp only [if_neg hk] at hm
          obtain ⟨own', bdb', hscope, hbase, hmeq⟩ := h.consistent k m hm
          exact ⟨own', bdb', hscope, hbase, hmeq⟩

theorem inv_resolveSubjectCase {t : RagState} {si : Option Nat} {r : Option VectorDB}
    {s' : RagState} (h : Inv t)
    (hOk : resolveSubjectCase t si = .ok (r, s')) : Inv s' := by
  unfold resolveSubjectCase resolveBaseCase at hOk
  cases si with
  | some sid =>
    cases hdb : t.subjectDbs sid with
    | some db =>
      simp only [hdb, Except.ok.injEq] at hOk
      have h2 : (scopePath t (.subject sid) db).2 = s' := by rw [hOk]
      rw [← h2]
      exact inv_scopePath h (by simpa [scopeDb] using hdb)
    | none =>
      cases hbase : t.baseDb with
      | some bv =>
        simp only [hdb, hbase, Except.ok.injEq, Prod.mk.injEq] at hOk
        rw [← hOk.2]
        exact h
      | none => simp [hdb, hbase] at hOk
  | none =>
    cases hbase : t.baseDb with
    | some bv =>
      simp only [hbase, Except.ok.injEq, Prod.mk.injEq] at hOk
      rw [← hOk.2]
      exact h
    | none => simp [hbase] at hOk

theorem inv_resolveStudentCase {t : RagState} {si ui : Option Nat} {r : Option VectorDB}
    {s' : RagState} (h : Inv t)
    (hOk : resolveStudentCase t si ui = .ok (r, s')) : Inv s' := by
  unfold resolveStudentCase at hOk
  cases ui with
  | some uid =>
    cases hdb : t.studentDbs uid with
    | some db =>
      simp only [hdb, Except.ok.injEq] at hOk
      have h2 : (scopePath t (.student uid) db).2 = s' := by rw [hOk]
      rw [← h2]
      exact inv_scopePath h (by simpa [scopeDb] using hdb)
    | none =>
      simp only [hdb] at hOk
      exact inv_resolveSubjectCase h hOk
  | none => exact inv_resolveSubjectCase h hOk

theorem inv_resolve {s : RagState} {si ui : Option Nat} {r : Option VectorDB}
    {s' : RagState} (h : Inv s)
    (hOk : get_hierarchical_db s si ui = .ok (r, s')) : Inv s' := by
  have hL := inv_loadBase h
  unfold get_hierarchical_db at hOk
  cases si with
  | none =>
    cases ui with
    | none =>
      simp only [Except.ok.injEq, Prod.mk.injEq] at hOk
      rw [← hOk.2]
      exact hL
    | some u => exact inv_resolveStudentCase hL hOk
  | some i =>
    cases ui with
    | none => exact inv_resolveStudentCase hL hOk
    | some u => exact inv_resolveStudentCase hL hOk

theorem inv_step {s : RagState} (h : Inv s) (op : Op) : Inv (step s op) := by
  cases op with
  | create chunks si ui bb =>
    simp only [step]
    cases hres : create_vector_db s chunks si ui bb with
    | ok v =>
      cases v with
      | mk n s' => exact inv_create h hres
    | error e => exact h
  | resolve si ui =>
    simp only [step]
    cases hres : get_hierarchical_db s si ui with
    | ok v =>
      cases v with
      | mk r s' => exact inv_resolve h hres
    | error e => exact h

theorem inv_run_aux {s : RagState} (h : Inv s) (ops : List Op) : Inv (run s ops) := by
  induction ops generalizing s with
  | nil => exact h
  | cons op ops ih => exact ih (inv_step h op)

theorem inv_run (st : DiskStore) (ops : List Op) : Inv (run (initState st) ops) :=
  inv_run_aux (inv_init st) ops

/-- **C4.** In any state reachable by a sequence of
`create_vector_db` / `get_hierarchical_db` calls from a fresh process
(over an arbitrary pre-existing disk store), whenever
`get_hierarchical_db` returns a merged store for a scope (the returned
store is the scope's merge-cache entry), that store is exactly the
student/subject document list concatenated with the base document
list as they stand at that moment — so a chunk is retrievable from the
merge iff it is in the scope's store or in the base store. -/
theorem merge_consistency :
    (∀ (st : DiskStore) (ops : List Op) (u : Nat) (r : VectorDB) (s' : RagState),
      get_hierarchical_db (run (initState st) ops) none (some u) = .ok (some r, s') →
      s'.mergedDbs (.student u) = some r →
      ∃ sdb bdb, s'.studentDbs u = some sdb ∧ s'.baseDb = some bdb ∧
        r = sdb ++ bdb ∧ ∀ x, x ∈ r ↔ (x ∈ sdb ∨ x ∈ bdb)) ∧
    (∀ (st : DiskStore) (ops : List Op) (i : Nat) (r : VectorDB) (s' : RagState),
      get_hierarchical_db (run (initState st) ops) (some i) none = .ok (some r, s') →
      s'.mergedDbs (.subject i) = some r →
      ∃ sdb bdb, s'.subjectDbs i = some sdb ∧ s'.baseDb = some bdb ∧
        r = sdb ++ bdb ∧ ∀ x, x ∈ r ↔ (x ∈ sdb ∨ x ∈ bdb)) := by
  constructor
  · intro st ops u r s' hOk hEntry
    have hInv : Inv s' := inv_resolve (inv_run st ops) hOk
    obtain ⟨own, bdb, hscope, hbase, hmeq⟩ := hInv.consistent _ r hEntry
    simp only [scopeDb] at hscope
    refine ⟨own, bdb, hscope, hbase, hmeq, ?_⟩
    intro x
    rw [hmeq]
    exact List.mem_append
  · intro st ops i r s' hOk hEntry
    have hInv : Inv s' := inv_resolve (inv_run st ops) hOk
    obtain ⟨own, bdb, hscope, hbase, hmeq⟩ := hInv.consistent _ r hEntry
    simp only [scopeDb] at hscope
    refine ⟨own, bdb, hscope, hbase, hmeq, ?_⟩
    intro x
    rw [hmeq]
    exact List.mem_append

/-! ### Parser helper lemmas -/

theorem dropWhile_leadOk (l : List Char) : leadOk (l.dropWhile isSpaceC) = true := by
  induction l with
  | nil => rfl
  | cons c rest ih =>
    by_cases h : isSpaceC c = true
    · simpa [List.dropWhile_cons, h] using ih
    · simp only [Bool.not_eq_true] at h
      simp [List.dropWhile_cons, h, leadOk]

theorem dropEndWhile_leadOk (p : Char → Bool) (l : List Char) (h : leadOk l = true) :
    leadOk (dropEndWhile p l) = true := by
  cases l with
  | nil => rfl
  | cons c rest =>
    simp only [dropEndWhile]
    cases hd : dropEndWhile p rest with
    | nil =>
      by_cases hc : p c = true
      · simp [hc, leadOk]
      · simp only [Bool.not_eq_true] at hc
        simpa [hc, leadOk] using h
    | cons x xs => simpa [leadOk] using h

theorem trimC_leadOk (l : List Char) : leadOk (trimC l) = true :=
  dropEndWhile_leadOk _ _ (dropWhile_leadOk l)

theorem dropEndWhile_ne_nil {p : Char → Bool} {c : Char} (l : List Char)
    (h : p c = false) : dropEndWhile p (c :: l) ≠ [] := by
  simp only [dropEndWhile]
  cases hd : dropEndWhile p l with
  | nil => simp [h]
  | cons x xs => simp

theorem trimC_ne_nil {c : Char} {l : List Char} (h : isSpaceC c = false) :
    trimC (c :: l) ≠ [] := by
  unfold trimC
  rw [List.dropWhile_cons, if_neg (by simp [h])]
  exact dropEndWhile_ne_nil l h

theorem hasLead_head {s c : Char} {ss l : List Char}
    (h : hasLead (s :: ss) (c :: l) = true) : c = s := by
  simp only [hasLead, Bool.and_eq_true, beq_iff_eq] at h
  exact h.1.symm

theorem splitFirstC_cases {sep : List Char} {c : Char} {rest pre post : List Char}
    (h : splitFirstC sep (c :: rest) = some (pre, post)) :
    (hasLead sep (c :: rest) = true ∧ pre = []) ∨ ∃ pre', pre = c :: pre' := by
  unfold splitFirstC at h
  by_cases hl : hasLead sep (c :: rest) = true
  · rw [if_pos hl] at h
    injection h with he
    exact Or.inl ⟨hl, (congrArg Prod.fst he).symm⟩
  · rw [if_neg hl] at h
    cases hrec : splitFirstC sep rest with
    | some pp =>
      rw [hrec] at h
      cases pp with
      | mk p1 p2 =>
        injection h with he
        exact Or.inr ⟨p1, (congrArg Prod.fst he).symm⟩
    | none => rw [hrec] at h; cases h

theorem parseBlockAlt_facts {block : List Char} {pb : ParsedBlock}
    (h : parseBlockAlt block = some pb) :
    pb.question ≠ [] ∧ isLabel pb.correct = true := by
  simp only [parseBlockAlt] at h
  split at h
  · split at h
    · cases h
    · split at h
      · rename_i hcond hlab
        injection h with he
        rw [← he]
        refine ⟨?_, hlab⟩
        intro hq
        exact hcond (Or.inl hq)
      · cases h
  · cases h

theorem parseBlockOrig_facts {pre post : List Char} {pb : ParsedBlock}
    (h : parseBlockOrig pre post = some pb) :
    pb.question = trimC pre ∧ isLabel pb.correct = true := by
  simp only [parseBlockOrig] at h
  split at h
  · split at h
    · cases h
    · split at h
      · rename_i hlab
        injection h with he
        rw [← he]
        exact ⟨rfl, hlab⟩
      · cases h
  · cases h

theorem isLabel_cases {ca : List Char} (h : isLabel ca = true) :
    ca = ['A'] ∨ ca = ['B'] ∨ ca = ['C'] ∨ ca = ['D'] := by
  simp only [isLabel, Bool.or_eq_true, beq_iff_eq] at h
  tauto

theorem parseBlockC_facts {block : List Char} {pb : ParsedBlock}
    (hne : block ≠ []) (hlead : leadOk block = true)
    (h : parseBlockC block = some pb) :
    pb.question ≠ [] ∧ isLabel pb.correct = true := by
  unfold parseBlockC at h
  cases hs : splitFirstC ('\n' :: 'A' :: ':' :: []) block with
  | none =>
    rw [hs] at h
    exact parseBlockAlt_facts h
  | some pp =>
    rw [hs] at h
    cases pp with
    | mk pre post =>
      obtain ⟨hq, hlab⟩ := parseBlockOrig_facts h
      refine ⟨?_, hlab⟩
      rw [hq]
      cases block with
      | nil => exact absurd rfl hne
      | cons c rest =>
        have hsp : isSpaceC c = false := by
          simpa [leadOk] using hlead
        rcases splitFirstC_cases hs with ⟨hhl, hpre⟩ | ⟨pre', hpre⟩
        · have hcnl : c = '\n' := hasLead_head hhl
          rw [hcnl] at hsp
          simp [isSpaceC] at hsp
        · rw [hpre]
          exact trimC_ne_nil hsp

theorem makeBlocks_good {raw b : List Char} (hb : b ∈ makeBlocks raw) :
    b ≠ [] ∧ leadOk b = true := by
  simp only [makeBlocks, List.mem_filter, List.mem_map] at hb
  obtain ⟨⟨orig, _, horig⟩, hne⟩ := hb
  constructor
  · intro hbnil
    rw [hbnil] at hne
    simp at hne
  · rw [← horig]
    exact trimC_leadOk orig

theorem mkStr_ne_empty {l : List Char} (h : l ≠ []) : String.mk l ≠ "" := by
  intro hc
  exact h (congrArg String.data hc)

theorem countP_answers (ca : List Char) (t1 t2 t3 t4 : String)
    (h : ca = ['A'] ∨ ca = ['B'] ∨ ca = ['C'] ∨ ca = ['D']) :
    List.countP (fun a => a.isCorrect)
      ([⟨t1, ca == ['A']⟩, ⟨t2, ca == ['B']⟩, ⟨t3, ca == ['C']⟩,
        ⟨t4, ca == ['D']⟩] : List AnswerRec) = 1 := by
  rcases h with h | h | h | h <;> subst h <;> rfl

theorem parseGo_mem {P : QuestionRec → Prop} (numQ : Nat) :
    ∀ (bs : List (List Char)) (acc : List QuestionRec) (sk : Nat),
      (∀ q ∈ acc, P q) →
      (∀ b pb, b ∈ bs → parseBlockC b = some pb → P (toRecord pb)) →
      ∀ q ∈ (parseGo numQ bs acc sk).1, P q := by
  intro bs
  induction bs with
  | nil =>
    intro acc sk hacc _ q hq
    simp only [parseGo] at hq
    rw [List.mem_reverse] at hq
    exact hacc q hq
  | cons b bs ih =>
    intro acc sk hacc hblocks q hq
    cases hpr : parseRec b with
    | none =>
      simp only [parseGo, hpr] at hq
      exact ih acc (sk + 1) hacc (fun b' pb hb' => hblocks b' pb (List.mem_cons_of_mem _ hb')) q hq
    | some qr =>
      have hP : P qr := by
        unfold parseRec at hpr
        cases hpb : parseBlockC b with
        | none => rw [hpb] at hpr; cases hpr
        | some pb =>
          rw [hpb] at hpr
          simp only [Option.map_some', Option.some.injEq] at hpr
          rw [← hpr]
          exact hblocks b pb (List.mem_cons_self _ _) hpb
      simp only [parseGo, hpr] at hq
      by_cases hstop : numQ ≤ acc.length + 1
      · rw [if_pos hstop] at hq
        simp only [List.mem_reverse, List.mem_cons] at hq
        rcases hq with hq | hq
        · rw [hq]; exact hP
        · exact hacc q hq
      · rw [if_neg hstop] at hq
        refine ih (qr :: acc) sk ?_ (fun b' pb hb' => hblocks b' pb (List.mem_cons_of_mem _ hb')) q hq
        intro q' hq'
        rcases List.mem_cons.mp hq' with hq' | hq'
        · rw [hq']; exact hP
        · exact hacc q' hq'

/-! ### C7: result guarantee of the parse step -/

/-- **C7.** Every question record produced by the parse step of
`generate_quiz_questions` has non-empty question text, exactly four
answer records, exactly one of them marked correct, and is built from
a validated block whose declared correct label is one of the four
extracted labels A-D. -/
theorem parser_result_guarantee :
    ∀ (raw : String) (numQ : Nat), ∀ q ∈ (parseQuizOutput raw numQ).1,
      q.text ≠ "" ∧ q.answers.length = 4 ∧
      q.answers.countP (fun a => a.isCorrect) = 1 ∧
      ∃ pb : ParsedBlock, q = toRecord pb ∧
        (pb.correct = ['A'] ∨ pb.correct = ['B'] ∨ pb.correct = ['C'] ∨
          pb.correct = ['D']) := by
  intro raw numQ
  refine parseGo_mem numQ (makeBlocks raw.data) [] 0 (by simp) ?_
  intro b pb hb hpb
  obtain ⟨hne, hlead⟩ := makeBlocks_good hb
  obtain ⟨hq, hlab⟩ := parseBlockC_facts hne hlead hpb
  have hcases := isLabel_cases hlab
  exact ⟨mkStr_ne_empty hq, rfl, countP_answers pb.correct _ _ _ _ hcases, pb, rfl, hcases⟩

/-! ### C8: the parse step never fails and counts every skip -/

theorem length_filterMap_add_countP_none {α β : Type} (f : α → Option β) (l : List α) :
    (l.filterMap f).length + l.countP (fun x => (f x).isNone) = l.length := by
  induction l with
  | nil => rfl
  | cons x xs ih =>
    cases hf : f x <;>
      simp [List.filterMap_cons, hf, List.countP_cons, ← ih] <;> omega

theorem parseGo_spec (numQ : Nat) :
    ∀ (bs : List (List Char)) (acc : List QuestionRec) (sk : Nat),
      ∃ p q, bs = p ++ q ∧
        (parseGo numQ bs acc sk).1 = acc.reverse ++ p.filterMap parseRec ∧
        (parseGo numQ bs acc sk).2 = sk + p.countP (fun b => (parseRec b).isNone) ∧
        (q = [] ∨ (numQ ≤ (parseGo numQ bs acc sk).1.length ∧
          0 < (parseGo numQ bs acc sk).1.length)) := by
  intro bs
  induction bs with
  | nil =>
    intro acc sk
    exact ⟨[], [], rfl, by simp [parseGo], by simp [parseGo], Or.inl rfl⟩
  | cons b bs ih =>
    intro acc sk
    cases hpr : parseRec b with
    | none =>
      obtain ⟨p, q, hsplit, h1, h2, h3⟩ := ih acc (sk + 1)
      have hred : parseGo numQ (b :: bs) acc sk = parseGo numQ bs acc (sk + 1) := by
        simp only [parseGo, hpr]
      refine ⟨b :: p, q, by rw [List.cons_append, hsplit], ?_, ?_, ?_⟩
      · rw [hred, h1]
        simp [List.filterMap_cons, hpr]
      · rw [hred, h2]
        simp [List.countP_cons, hpr]
        omega
      · rw [hred]
        exact h3
    | some qr =>
      by_cases hstop : numQ ≤ acc.length + 1
      · have hred : parseGo numQ (b :: bs) acc sk = ((qr :: acc).reverse, sk) := by
          simp only [parseGo, hpr]
          rw [if_pos hstop]
        refine ⟨[b], bs, rfl, ?_, ?_, Or.inr ⟨?_, ?_⟩⟩
        · rw [hred]
          simp [List.filterMap_cons, hpr]
        · rw [hred]
          simp [List.countP_cons, hpr]
        · rw [hred]
          simp
          omega
        · rw [hred]
          simp
      · obtain ⟨p, q, hsplit, h1, h2, h3⟩ := ih (qr :: acc) sk
        have hred : parseGo numQ (b :: bs) acc sk = parseGo numQ bs (qr :: acc) sk := by
          simp only [parseGo, hpr]
          rw [if_neg hstop]
        refine ⟨b :: p, q, by rw [List.cons_append, hsplit], ?_, ?_, ?_⟩
        · rw [hred, h1]
          simp [List.filterMap_cons, hpr]
        · rw [hred, h2]
          simp [List.countP_cons, hpr]
        · rw [hred]
          exact h3

/-- **C8.** The parse step is a total function returning the record
list and a skip count: every attempted block either yields a record or
is counted as a skip (`records = attempted.filterMap parseRec` and
`skipped` counts the attempted blocks whose gate fails), the loop
stops early only once `numQ` records exist, the records and skips
together never exceed the number of blocks, and on fully malformed
text the result is the empty list with every block counted as
skipped. -/
theorem parse_never_fails :
    ∀ (raw : String) (numQ : Nat),
      (parseQuizOutput raw numQ).1.length + (parseQuizOutput raw numQ).2 ≤
        (makeBlocks raw.data).length ∧
      (∃ p q, makeBlocks raw.data = p ++ q ∧
        (parseQuizOutput raw numQ).1 = p.filterMap parseRec ∧
        (parseQuizOutput raw numQ).2 = p.countP (fun b => (parseRec b).isNone) ∧
        (q = [] ∨ numQ ≤ (parseQuizOutput raw numQ).1.length)) ∧
      ((parseQuizOutput raw numQ).1 = [] →
        (parseQuizOutput raw numQ).2 = (makeBlocks raw.data).length) := by
  intro raw numQ
  obtain ⟨p, q, hsplit, h1, h2, h3⟩ := parseGo_spec numQ (makeBlocks raw.data) [] 0
  have h1' : (parseQuizOutput raw numQ).1 = p.filterMap parseRec := by
    rw [parseQuizOutput, h1]
    simp
  have h2' : (parseQuizOutput raw numQ).2 = p.countP (fun b => (parseRec b).isNone) := by
    rw [parseQuizOutput, h2]
    simp
  have hcount := length_filterMap_add_countP_none parseRec p
  refine ⟨?_, ⟨p, q, hsplit, h1', h2', ?_⟩, ?_⟩
  · rw [h1', h2', hsplit]
    simp only [List.length_append]
    omega
  · rcases h3 with h3 | h3
    · exact Or.inl h3
    · exact Or.inr h3.1
  · intro hnil
    rw [h1'] at hnil
    have hq : q = [] := by
      rcases h3 with h3 | h3
      · exact h3
      · exfalso
        have : (parseQuizOutput raw numQ).1.length = 0 := by
          rw [h1', hnil]
          rfl
        rw [parseQuizOutput] at this
        omega
    have hall : ∀ b ∈ p, parseRec b = none := by
      rw [← List.filterMap_eq_nil_iff]
      exact hnil
    rw [h2', hsplit, hq, List.append_nil]
    have : p.countP (fun b => (parseRec b).isNone) = p.length := by
      rw [List.countP_eq_length]
      intro b hb
      rw [hall b hb]
      rfl
    rw [this]

/-! ### C10: input validation of `generate_quiz_questions` -/

/-- **C10.** `generate_quiz_questions` fails with a `ValueError`
whenever the requested question count is outside 1..20 or the
difficulty level is outside 1..5, before looking at any text (the
error is independent of the raw output), and the validation passes
exactly on the in-range arguments. -/
theorem quiz_param_validation :
    ∀ (raw : String) (n d : Int),
      (validateQuizParams n d = .ok () ↔ 1 ≤ n ∧ n ≤ 20 ∧ 1 ≤ d ∧ d ≤ 5) ∧
      (¬ (1 ≤ n ∧ n ≤ 20 ∧ 1 ≤ d ∧ d ≤ 5) →
        (∃ msg, generate_quiz_questions raw n d = .error (.valueError msg)) ∧
        generate_quiz_questions raw n d = generate_quiz_questions "" n d) := by
  intro raw n d
  unfold generate_quiz_questions validateQuizParams
  by_cases h1 : n ≤ 0 ∨ 20 < n
  · rw [if_pos h1]
    constructor
    · constructor
      · intro hc; cases hc
      · intro h; exfalso; omega
    · intro _
      exact ⟨⟨_, rfl⟩, rfl⟩
  · rw [if_neg h1]
    by_cases h2 : d < 1 ∨ 5 < d
    · rw [if_pos h2]
      constructor
      · constructor
        · intro hc; cases hc
        · intro h; exfalso; omega
      · intro _
        exact ⟨⟨_, rfl⟩, rfl⟩
    · rw [if_neg h2]
      push_neg at h1 h2
      constructor
      · constructor
        · intro _; omega
        · intro _; rfl
      · intro hcon
        exfalso
        apply hcon
        omega

/-! ### Witnesses: each hypothesis-bearing claim theorem applied at
concrete inputs -/

theorem create_invalidation_frame_witness :
    afterBaseBuild.mergedDbs (MergeKey.subject 1) = none ∧
    (afterSubjectBuild.mergedDbs (MergeKey.subject 1) = none ∧
      afterSubjectBuild.mergedDbs (MergeKey.student 2) =
        twoMergesState.mergedDbs (MergeKey.student 2)) ∧
    (afterStudentBuild.mergedDbs (MergeKey.student 2) = none ∧
      afterStudentBuild.mergedDbs (MergeKey.subject 1) =
        twoMergesState.mergedDbs (MergeKey.subject 1)) ∧
    (∃ s₂, get_hierarchical_db freshCacheState none (some 2) =
        .ok (some (["u2"] ++ ["b"]), s₂) ∧
      s₂.embeds = freshCacheState.embeds + (["u2"] ++ ["b"]).length ∧
      s₂.mergedDbs (MergeKey.student 2) = some (["u2"] ++ ["b"])) ∧
    (∃ s₂, get_hierarchical_db freshCacheState (some 1) none =
        .ok (some (["s1"] ++ ["b"]), s₂) ∧
      s₂.embeds = freshCacheState.embeds + (["s1"] ++ ["b"]).length ∧
      s₂.mergedDbs (MergeKey.subject 1) = some (["s1"] ++ ["b"])) ∧
    (∃ s', get_hierarchical_db afterSubjectBuild none (some 2) =
        .ok (some ["u2", "b"], s') ∧
      s'.embeds = afterSubjectBuild.embeds ∧ s'.mergedDbs = afterSubjectBuild.mergedDbs) ∧
    (∃ s', get_hierarchical_db afterStudentBuild (some 1) none =
        .ok (some ["s1", "b"], s') ∧
      s'.embeds = afterStudentBuild.embeds ∧ s'.mergedDbs = afterStudentBuild.mergedDbs) := by
  refine ⟨?_, ?_, ?_, ?_, ?_, ?_, ?_⟩
  · exact create_invalidation_frame.1 (initState emptyStore) ["c"] 1 afterBaseBuild rfl
      (by decide) rfl (MergeKey.subject 1)
  · have h := create_invalidation_frame.2.1 twoMergesState ["c"] 1 1 afterSubjectBuild rfl
      (by decide) rfl
    exact ⟨h.1, h.2 (MergeKey.student 2) (by decide)⟩
  · have h := create_invalidation_frame.2.2.1 twoMergesState ["c"] 2 1 afterStudentBuild rfl
      (by decide) rfl
    exact ⟨h.1, h.2 (MergeKey.subject 1) (by decide)⟩
  · exact create_invalidation_frame.2.2.2.1 freshCacheState 2 ["u2"] ["b"] (fun _ => rfl) rfl rfl
  · exact create_invalidation_frame.2.2.2.2.1 freshCacheState 1 ["s1"] ["b"] (fun _ => rfl) rfl rfl
  · exact create_invalidation_frame.2.2.2.2.2.1 afterSubjectBuild 2 ["u2"] ["u2", "b"] rfl rfl
  · exact create_invalidation_frame.2.2.2.2.2.2 afterStudentBuild 1 ["s1"] ["s1", "b"] rfl rfl

theorem ensureIndex_idempotent_witness :
    ∃ s₁ s₂, createFor (initState storeWithBase) ["other"] Tier.base = .ok (1, s₁) ∧
      createFor s₁ ["other"] Tier.base = .ok (1, s₂) ∧
      s₁.embeds = (initState storeWithBase).embeds ∧ s₂ = s₁ :=
  ensureIndex_idempotent (initState storeWithBase) ["other"] Tier.base ["doc"] rfl (by decide)

theorem merge_reembeds_witness :
    (merge_vector_dbs ["a"] ["b", "c"]).2 = 3 ∧
    (∃ s', get_hierarchical_db mergeCostState none (some 1) =
        .ok (some (["student-doc"] ++ ["base-doc"]), s') ∧
      s'.embeds = mergeCostState.embeds + (1 + 1)) :=
  ⟨merge_reembeds.1 ["a"] ["b", "c"],
   merge_reembeds.2.1 mergeCostState 1 ["student-doc"] ["base-doc"] rfl rfl rfl⟩

theorem merge_consistency_witness :
    ∃ sdb bdb, c4Resolved.studentDbs 1 = some sdb ∧ c4Resolved.baseDb = some bdb ∧
      (["a", "b"] : VectorDB) = sdb ++ bdb ∧
      ∀ x, x ∈ (["a", "b"] : VectorDB) ↔ (x ∈ sdb ∨ x ∈ bdb) :=
  merge_consistency.1 emptyStore c4Ops 1 ["a", "b"] c4Resolved rfl rfl

theorem resolve_fallback_witness :
    get_hierarchical_db (initState emptyStore) none none = .ok (none, initState emptyStore) ∧
    get_hierarchical_db mergeCostState none (some 7) = .ok (some ["base-doc"], mergeCostState) ∧
    get_hierarchical_db mergeCostState (some 3) none = .ok (some ["base-doc"], mergeCostState) ∧
    get_hierarchical_db (initState emptyStore) none (some 7) =
      .error (.valueError "No vector database available for this context") ∧
    get_hierarchical_db (initState emptyStore) (some 3) none =
      .error (.valueError "No vector database available for this context") :=
  ⟨resolve_fallback.2.1 (initState emptyStore) rfl rfl,
   resolve_fallback.2.2.1 mergeCostState 7 ["base-doc"] rfl rfl,
   resolve_fallback.2.2.2.1 mergeCostState 3 ["base-doc"] rfl rfl,
   resolve_fallback.2.2.2.2.1 (initState emptyStore) 7 rfl rfl rfl,
   resolve_fallback.2.2.2.2.2 (initState emptyStore) 3 rfl rfl rfl⟩

theorem individual_precedence_witness :
    (get_hierarchical_db mergeCostState (some 3) (some 1) =
      get_hierarchical_db mergeCostState none (some 1)) ∧
    ∃ r s', get_hierarchical_db mergeCostState (some 3) (some 1) = .ok (some r, s') ∧
      (s'.mergedDbs (MergeKey.student 1) = some r ∨ r = ["student-doc"]) :=
  individual_precedence mergeCostState 3 1 ["student-doc"] rfl

theorem parser_result_guarantee_witness :
    sampleRec.text ≠ "" ∧ sampleRec.answers.length = 4 ∧
    sampleRec.answers.countP (fun a => a.isCorrect) = 1 ∧
    ∃ pb : ParsedBlock, sampleRec = toRecord pb ∧
      (pb.correct = ['A'] ∨ pb.correct = ['B'] ∨ pb.correct = ['C'] ∨
        pb.correct = ['D']) :=
  parser_result_guarantee sampleRaw 5 sampleRec (by decide)

theorem parse_never_fails_witness :
    (parseQuizOutput "garbage text" 5).1.length + (parseQuizOutput "garbage text" 5).2 ≤
      (makeBlocks "garbage text".data).length ∧
    (parseQuizOutput "garbage text" 5).2 = (makeBlocks "garbage text".data).length :=
  ⟨(parse_never_fails "garbage text" 5).1, (parse_never_fails "garbage text" 5).2.2 rfl⟩

theorem quiz_param_validation_witness :
    (validateQuizParams 0 3 = .ok () ↔
      1 ≤ (0 : Int) ∧ (0 : Int) ≤ 20 ∧ 1 ≤ (3 : Int) ∧ (3 : Int) ≤ 5) ∧
    ((∃ msg, generate_quiz_questions "x" 0 3 = .error (.valueError msg)) ∧
      generate_quiz_questions "x" 0 3 = generate_quiz_questions "" 0 3) :=
  ⟨(quiz_param_validation "x" 0 3).1, (quiz_param_validation "x" 0 3).2 (by decide)⟩

end Edunext
